import Mathlib

/-!
Verification development for the uroute URL dispatcher.

The development shallowly embeds the program's components: the URL cleaner,
the clipboard URL extraction, the INI configuration layer (uroute/config.py),
the GUI event handlers (uroute/gui.py) and the entry point (uroute/__main__.py).
Strings are modelled through their character lists so that splitting and
joining admit direct structural proofs.
-/

namespace UrouteModel

/-- Boolean test that the first character list is an initial segment of the second. -/
def hasPre : List Char → List Char → Bool
  | [], _ => true
  | _ :: _, [] => false
  | p :: ps, x :: xs => p == x && hasPre ps xs

/-- Splits a character list at the first occurrence of a separator character,
returning the part before and the part after it, or none when absent. -/
def breakFirst (c : Char) : List Char → Option (List Char × List Char)
  | [] => none
  | x :: xs =>
    if x = c then some ([], xs)
    else
      match breakFirst c xs with
      | some (a, b) => some (x :: a, b)
      | none => none

/-- Splits a character list on every occurrence of a separator character. -/
def splitOnChar (c : Char) : List Char → List (List Char)
  | [] => [[]]
  | x :: xs =>
    if x = c then [] :: splitOnChar c xs
    else
      match splitOnChar c xs with
      | [] => [[x]]
      | p :: ps => (x :: p) :: ps

/-- Auxiliary join: prepends the separator before every element. -/
def joinTail (c : Char) : List (List Char) → List Char
  | [] => []
  | p :: ps => c :: (p ++ joinTail c ps)

/-- Joins character lists with a separator character, inverse of splitOnChar. -/
def joinSep (c : Char) : List (List Char) → List Char
  | [] => []
  | p :: ps => p ++ joinTail c ps

/-- Modelled from the spec: uroute/url.py and uroute/core.py are not under src/.
The spec describes a fixed set of known tracking query parameters
(campaign and click-id parameters such as utm_source). -/
def tracking_params : List (List Char) :=
  ["utm_source".data, "utm_medium".data, "utm_campaign".data,
   "utm_term".data, "utm_content".data, "fbclid".data, "gclid".data]

/-- Key part of a query parameter: everything before the first equals sign. -/
def param_key (p : List Char) : List Char :=
  match breakFirst '=' p with
  | some (k, _) => k
  | none => p

/-- A query parameter is a tracking parameter when its key is in the fixed set. -/
def is_tracking_param (p : List Char) : Bool :=
  tracking_params.contains (param_key p)

/-- Modelled from the spec: strip the fixed set of known tracking query
parameters from a URL, leaving all other parameters in place. -/
def strip_tracking (l : List Char) : List Char :=
  match breakFirst '?' l with
  | none => l
  | some (b, q) =>
    match (splitOnChar '&' q).filter (fun p => !is_tracking_param p) with
    | [] => b
    | k :: ks => b ++ '?' :: joinSep '&' (k :: ks)

/-- A parameter value counts as a nested URL when it carries an http scheme. -/
def is_url_value (v : List Char) : Bool :=
  hasPre "http://".data v || hasPre "https://".data v

/-- First query parameter value that is itself a URL, if any. -/
def first_url_value : List (List Char) → Option (List Char)
  | [] => none
  | p :: ps =>
    match breakFirst '=' p with
    | some (_, v) => if is_url_value v then some v else first_url_value ps
    | none => first_url_value ps

/-- Modelled from the spec: a redirect wrapper is a URL whose real target is
encoded as a query parameter pointing at a nested URL. -/
def redirect_target (l : List Char) : Option (List Char) :=
  match breakFirst '?' l with
  | none => none
  | some (_, q) => first_url_value (splitOnChar '&' q)

/-- Fuel-bounded cleaning loop: strip tracking parameters, then unwrap a
redirect wrapper recursively.  The fuel bounds the number of unwrapping
steps so that cleaning terminates even on malformed input. -/
def clean_url_fuel : Nat → List Char → List Char
  | 0, l => strip_tracking l
  | n + 1, l =>
    match redirect_target (strip_tracking l) with
    | some t => clean_url_fuel n t
    | none => strip_tracking l

/-- Modelled from the spec: Uroute.clean_url (uroute/core.py is not under src/)
strips known tracking parameters and unwraps redirect wrappers recursively,
with a bound to avoid infinite loops on malformed input.  Each unwrapping step
moves to a strictly shorter string, so fuel equal to the input length always
suffices. -/
def clean_url (s : String) : String :=
  String.mk (clean_url_fuel s.data.length s.data)

/-- Whether a character-list URL carries at least one tracking query parameter. -/
def has_tracking_chars (l : List Char) : Bool :=
  match breakFirst '?' l with
  | none => false
  | some (_, q) => (splitOnChar '&' q).any is_tracking_param

/-- Whether a URL carries at least one tracking query parameter. -/
def has_tracking_params (s : String) : Bool :=
  has_tracking_chars s.data

/-- Whether a URL is a redirect wrapper (has a query parameter pointing at a
nested URL). -/
def has_redirect_param (s : String) : Bool :=
  (redirect_target s.data).isSome

/-- Scans for the first position where an http or https scheme starts and takes
characters up to the first whitespace from there. -/
def extract_url_chars : List Char → Option (List Char)
  | [] => none
  | x :: xs =>
    if is_url_value (x :: xs) then
      some ((x :: xs).takeWhile (fun ch => !ch.isWhitespace))
    else extract_url_chars xs

/-- Modelled from the spec: extract_url (uroute/url.py is not under src/)
extracts the first URL-shaped substring from arbitrary text, or indicates
none found. -/
def extract_url (s : String) : Option String :=
  (extract_url_chars s.data).map String.mk

/-- Embeds gui.get_clipboard_url: the clipboard either holds no text (None) or
some text; empty text is falsy in Python, so both yield None, and otherwise
the result is extract_url applied to the clipboard text. -/
def get_clipboard_url (clipboard : Option String) : Option String :=
  match clipboard with
  | some contents => if contents = "" then none else extract_url contents
  | none => none

/-! Configuration layer, embedded from src/uroute/config.py.  A configuration
is an ordered mapping of section name to an ordered mapping of option key to
string value; the state carries both the in-memory mapping and the mapping
that was last written to the file on disk. -/

abbrev ConfigSection := List (String × String)

abbrev Sections := List (String × ConfigSection)

/-- Looks up a section by name, first match. -/
def lookupSection : Sections → String → Option ConfigSection
  | [], _ => none
  | s :: rest, name => if s.1 == name then some s.2 else lookupSection rest name

/-- Embeds ConfigParser.has_section. -/
def hasSection (ss : Sections) (name : String) : Bool :=
  (lookupSection ss name).isSome

/-- Looks up an option value inside a section, first match. -/
def findKey : ConfigSection → String → Option String
  | [], _ => none
  | kv :: rest, key => if kv.1 == key then some kv.2 else findKey rest key

/-- Sets an option inside a section, replacing an existing entry in place or
appending a new one. -/
def setKeyInSection (sec : ConfigSection) (key val : String) : ConfigSection :=
  if sec.any (fun kv => kv.1 == key) then
    sec.map (fun kv => if kv.1 == key then (key, val) else kv)
  else sec ++ [(key, val)]

/-- Sets an option inside a named section of the configuration. -/
def setKey (ss : Sections) (name key val : String) : Sections :=
  ss.map (fun s => if s.1 == name then (s.1, setKeyInSection s.2 key val) else s)

/-- Replaces the content of a named section in place, or appends the section,
mirroring ConfigParser item assignment which keeps an existing section's
position. -/
def setSection (ss : Sections) (name : String) (sec : ConfigSection) : Sections :=
  if hasSection ss name then
    ss.map (fun s => if s.1 == name then (name, sec) else s)
  else ss ++ [(name, sec)]

/-- Configuration state: in-memory sections and the sections on disk. -/
structure ConfigState where
  mem : Sections
  disk : Sections
deriving DecidableEq, Repr

/-- Embeds configparser boolean conversion: the stored value is lowercased and
looked up in BOOLEAN_STATES; an unknown value is a conversion failure
(ValueError). -/
def str_to_bool (s : String) : Option Bool :=
  let t := String.mk (s.data.map Char.toLower)
  if t == "1" || t == "yes" || t == "true" || t == "on" then some true
  else if t == "0" || t == "no" || t == "false" || t == "off" then some false
  else none

/-- Embeds Config.read_bool (config.py lines 79 to 86).  Accessing a missing
section raises KeyError in configparser, modelled as the error case.  A
missing option yields the fallback unchanged; an invalid stored value yields
the fallback and rewrites the stored value in memory to a canonical boolean
string.  No save happens here. -/
def ConfigState.read_bool (st : ConfigState) (setting : String)
    (sect : String) (fallback : Bool) : Except Unit (Bool × ConfigState) :=
  match lookupSection st.mem sect with
  | none => Except.error ()
  | some sec =>
    match findKey sec setting with
    | none => Except.ok (fallback, st)
    | some v =>
      match str_to_bool v with
      | some b => Except.ok (b, st)
      | none =>
        Except.ok (fallback,
          { st with
              mem := setKey st.mem sect setting (if fallback then "yes" else "no") })

/-- Embeds Config.save (config.py lines 88 to 90): writes the whole in-memory
configuration to the file on disk. -/
def ConfigState.save (st : ConfigState) : ConfigState :=
  { st with disk := st.mem }

/-- Embeds Config.write_bool (config.py lines 92 to 94): sets the value in the
given section, then immediately saves the whole configuration.  Accessing a
missing section raises KeyError, modelled as the error case. -/
def ConfigState.write_bool (st : ConfigState) (setting value sect : String) :
    Except Unit ConfigState :=
  match lookupSection st.mem sect with
  | none => Except.error ()
  | some _ =>
    Except.ok (ConfigState.save { st with mem := setKey st.mem sect setting value })

/-- Embeds create_initial_config (config.py lines 14 to 53): iterates the
browsers registered with the webbrowser module, emits default program
entries, and sets a private or incognito variant as the default program. -/
def create_initial_config (browsers : List String) : Sections :=
  let step := fun (acc : Sections × Option String) (browser_name : String) =>
    if browser_name == "firefox" then
      (setSection
        (setSection acc.1 "program:firefox"
          [("name", "Firefox"), ("command", "firefox")])
        "program:firefox-private"
        [("name", "Firefox Private Window"),
         ("command", "firefox --private-window")],
       some "firefox-private")
    else if browser_name == "chromium-browser" then
      (setSection
        (setSection
          (setSection acc.1 "program:chromium"
            [("name", "Chromium"), ("command", "chromium-browser")])
          "program:chromium-incognito"
          [("name", "Chromium Incognito"),
           ("command", "chromium-browser --incognito")])
        "program:chromium-temp"
        [("name", "Chromium Temp Profile"),
         ("command", "chromium-browser --temp-profile")],
       if acc.2.isNone then some "chromium-incognito" else acc.2)
    else acc
  let res := browsers.foldl step ([("main", [])], none)
  match res.2 with
  | some db => setSection res.1 "main" [("default_program", db)]
  | none => res.1

/-- Content of the configuration file seen by Config.__init__: the existing
file when present, else the freshly synthesized initial configuration. -/
def config_disk (disk_file : Option Sections) (browsers : List String) : Sections :=
  match disk_file with
  | some d => d
  | none => create_initial_config browsers

/-- Embeds Config.__init__ (config.py lines 59 to 77): when the file is
absent, the initial configuration is synthesized and written to disk; the
file is then read into memory, and a missing main section is added in memory
only. -/
def config_init (disk_file : Option Sections) (browsers : List String) : ConfigState :=
  { mem :=
      if hasSection (config_disk disk_file browsers) "main" then
        config_disk disk_file browsers
      else setSection (config_disk disk_file browsers) "main" []
    disk := config_disk disk_file browsers }

/-! GUI event handling, embedded from src/uroute/gui.py, and the entry point,
embedded from src/uroute/__main__.py. -/

/-- Gdk keysym for the Escape key. -/
def KEY_Escape : Nat := 65307

/-- Gdk keysym for the Return key. -/
def KEY_Return : Nat := 65293

/-- Session state of the UrouteGui window: the captured command (None until
Run), the text of the command entry, the text of the URL entry, and whether
the Gtk main loop is still running. -/
structure GuiState where
  command : Option String
  command_entry : String
  url_entry : String
  running : Bool
deriving DecidableEq, Repr

/-- Embeds UrouteGui._on_run_clicked (gui.py lines 310 to 313): captures the
command entry text and quits the main loop. -/
def on_run_clicked (s : GuiState) : GuiState :=
  { s with command := some s.command_entry, running := false }

/-- Embeds UrouteGui._on_cancel_clicked (gui.py lines 299 to 302): clears the
captured command and quits the main loop. -/
def on_cancel_clicked (s : GuiState) : GuiState :=
  { s with command := none, running := false }

/-- Embeds UrouteGui._on_browser_icon_activated (gui.py lines 286 to 287):
double-clicking a program icon runs. -/
def on_browser_icon_activated (s : GuiState) : GuiState :=
  on_run_clicked s

/-- Embeds UrouteGui._on_key_pressed (gui.py lines 315 to 319): Escape
cancels, Return runs; the two checks are sequential. -/
def on_key_pressed (s : GuiState) (keyval : Nat) : GuiState :=
  let s1 := if keyval == KEY_Escape then on_cancel_clicked s else s
  if keyval == KEY_Return then on_run_clicked s1 else s1

/-- Events the window reacts to, as wired in _build_ui and
_build_button_toolbar. -/
inductive GuiEvent where
  | run_button : GuiEvent
  | icon_activated : GuiEvent
  | cancel_button : GuiEvent
  | window_destroy : GuiEvent
  | key (keyval : Nat) : GuiEvent
deriving DecidableEq, Repr

/-- Dispatches one GUI event to its connected handler: the Run button and an
icon double-click run, the Cancel button and the window destroy signal
cancel, key presses go to the key handler. -/
def handle_event (s : GuiState) : GuiEvent → GuiState
  | GuiEvent.run_button => on_run_clicked s
  | GuiEvent.icon_activated => on_browser_icon_activated s
  | GuiEvent.cancel_button => on_cancel_clicked s
  | GuiEvent.window_destroy => on_cancel_clicked s
  | GuiEvent.key keyval => on_key_pressed s keyval

/-- Embeds the Gtk.main loop of UrouteGui.run: events are handled until a
handler calls Gtk.main_quit, modelled by the running flag. -/
def gui_loop (s : GuiState) : List GuiEvent → GuiState
  | [] => s
  | e :: es => if s.running then gui_loop (handle_event s e) es else s

/-- Embeds the return value of UrouteGui.run: the captured command and the
text of the URL entry. -/
def gui_run_result (s : GuiState) : Option String × String :=
  (s.command, s.url_entry)

/-- Python truthiness of the optional captured command: None and the empty
string are falsy. -/
def command_truthy : Option String → Bool
  | none => false
  | some c => !(c == "")

/-- Observable outcome of one invocation of main. -/
structure MainOutcome where
  printed_version : Bool
  logged_error : Bool
  launched : Option (String × String)
  exit_code : Nat
deriving DecidableEq, Repr

/-- Embeds main (src/uroute/__main__.py lines 26 to 43).  With the version
flag, the version is printed and the process exits 0.  Otherwise the GUI run
and the subsequent launch happen inside one try block: an uncaught error is
logged and the process exits 1; otherwise the command is launched when it is
truthy and the process exits 0. -/
def main (version_flag : Bool)
    (gui_outcome : Except String (Option String × String))
    (run_outcome : Except String Unit) : MainOutcome :=
  if version_flag then ⟨true, false, none, 0⟩
  else
    match gui_outcome with
    | Except.error _ => ⟨false, true, none, 1⟩
    | Except.ok (none, _) => ⟨false, false, none, 0⟩
    | Except.ok (some c, url) =>
      if c == "" then ⟨false, false, none, 0⟩
      else
        match run_outcome with
        | Except.error _ => ⟨false, true, none, 1⟩
        | Except.ok _ => ⟨false, false, some (c, url), 0⟩

/-! Program registry, from the spec (uroute/core.py is not under src/). -/

/-- A configured program entry. -/
structure Program where
  key : String
  name : String
  command : String
  icon : Option String
deriving DecidableEq, Repr

/-- Registry state of the orchestrator: the configured programs in order and
the configured default program key. -/
structure UrouteState where
  programs : List Program
  default_program : String
deriving DecidableEq, Repr

/-- Finds a configured program by key. -/
def find_program : List Program → String → Option Program
  | [], _ => none
  | p :: rest, k => if p.key == k then some p else find_program rest k

/-- Modelled from the spec: Uroute.get_program (uroute/core.py is not under
src/) returns the program matching a preselection key, else the configured
default, else none if no programs are configured. -/
def get_program (ur : UrouteState) (key : Option String) : Option Program :=
  match key with
  | some k =>
    match find_program ur.programs k with
    | some p => some p
    | none => find_program ur.programs ur.default_program
  | none => find_program ur.programs ur.default_program

/-- Boolean success test for the exception-carrying results. -/
def exceptOk {ε α : Type} : Except ε α → Bool
  | Except.ok _ => true
  | Except.error _ => false

/-! Structural lemmas about splitting and joining character lists. -/

theorem splitOnChar_ne_nil (c : Char) (l : List Char) : splitOnChar c l ≠ [] := by
  induction l with
  | nil => simp [splitOnChar]
  | cons x xs ih =>
    by_cases hx : x = c
    · simp [splitOnChar, hx]
    · simp only [splitOnChar, if_neg hx]
      cases hr : splitOnChar c xs with
      | nil => simp
      | cons p ps => simp

theorem joinSep_splitOnChar (c : Char) (l : List Char) :
    joinSep c (splitOnChar c l) = l := by
  induction l with
  | nil => rfl
  | cons x xs ih =>
    obtain ⟨p, ps, hr⟩ := List.exists_cons_of_ne_nil (splitOnChar_ne_nil c xs)
    rw [hr] at ih
    by_cases hx : x = c
    · have h1 : splitOnChar c (x :: xs) = [] :: splitOnChar c xs := by
        simp [splitOnChar, hx]
      rw [h1, hr]
      have h2 : joinSep c ([] :: p :: ps) = c :: joinSep c (p :: ps) := rfl
      rw [h2, ih, hx]
    · have h1 : splitOnChar c (x :: xs) = (x :: p) :: ps := by
        simp only [splitOnChar, if_neg hx, hr]
      rw [h1]
      have h2 : joinSep c ((x :: p) :: ps) = x :: joinSep c (p :: ps) := rfl
      rw [h2, ih]

theorem not_mem_splitOnChar (c : Char) (l : List Char) :
    ∀ p ∈ splitOnChar c l, c ∉ p := by
  induction l with
  | nil =>
    intro p hp
    simp [splitOnChar] at hp
    simp [hp]
  | cons x xs ih =>
    intro p hp
    by_cases hx : x = c
    · simp only [splitOnChar, if_pos hx, List.mem_cons] at hp
      rcases hp with hp | hp
      · simp [hp]
      · exact ih p hp
    · obtain ⟨q, qs, hr⟩ := List.exists_cons_of_ne_nil (splitOnChar_ne_nil c xs)
      simp only [splitOnChar, if_neg hx, hr, List.mem_cons] at hp
      rcases hp with hp | hp
      · subst hp
        intro hmem
        rcases List.mem_cons.mp hmem with h | h
        · exact hx h.symm
        · exact ih q (by rw [hr]; exact List.mem_cons_self q qs) h
      · exact ih p (by rw [hr]; exact List.mem_cons_of_mem q hp)

theorem splitOnChar_single (c : Char) (p : List Char) (h : c ∉ p) :
    splitOnChar c p = [p] := by
  induction p with
  | nil => rfl
  | cons x xs ih =>
    have hx : ¬x = c := fun hxc => h (by simp [hxc])
    have hxs : c ∉ xs := fun hm => h (List.mem_cons_of_mem x hm)
    simp only [splitOnChar, if_neg hx, ih hxs]

theorem splitOnChar_append (c : Char) (a b : List Char) (h : c ∉ a) :
    splitOnChar c (a ++ c :: b) = a :: splitOnChar c b := by
  induction a with
  | nil => simp [splitOnChar]
  | cons x xs ih =>
    have hx : ¬x = c := fun hxc => h (by simp [hxc])
    have hxs : c ∉ xs := fun hm => h (List.mem_cons_of_mem x hm)
    have h1 : (x :: xs) ++ c :: b = x :: (xs ++ c :: b) := rfl
    rw [h1]
    simp only [splitOnChar, if_neg hx, ih hxs]

theorem splitOnChar_joinSep (c : Char) (ps : List (List Char)) (hne : ps ≠ [])
    (h : ∀ p ∈ ps, c ∉ p) : splitOnChar c (joinSep c ps) = ps := by
  induction ps with
  | nil => exact absurd rfl hne
  | cons p ps ih =>
    cases ps with
    | nil =>
      simp only [joinSep, joinTail, List.append_nil]
      exact splitOnChar_single c p (h p (List.mem_cons_self p []))
    | cons q qs =>
      have h1 : joinSep c (p :: q :: qs) = p ++ c :: joinSep c (q :: qs) := by
        simp [joinSep, joinTail]
      rw [h1, splitOnChar_append c p _ (h p (List.mem_cons_self p _)),
        ih (by simp) (fun r hr => h r (List.mem_cons_of_mem p hr))]

theorem breakFirst_eq (c : Char) (l a b : List Char)
    (h : breakFirst c l = some (a, b)) : l = a ++ c :: b ∧ c ∉ a := by
  induction l generalizing a with
  | nil => simp [breakFirst] at h
  | cons x xs ih =>
    by_cases hx : x = c
    · simp only [breakFirst, if_pos hx, Option.some.injEq, Prod.mk.injEq] at h
      obtain ⟨ha, hb⟩ := h
      subst ha
      subst hb
      simp [hx]
    · simp only [breakFirst, if_neg hx] at h
      cases hr : breakFirst c xs with
      | none => rw [hr] at h; simp at h
      | some r =>
        obtain ⟨a1, b1⟩ := r
        rw [hr] at h
        simp only [Option.some.injEq, Prod.mk.injEq] at h
        obtain ⟨ha, hb⟩ := h
        subst hb
        obtain ⟨hxs, hna⟩ := ih a1 hr
        subst ha
        constructor
        · rw [List.cons_append, hxs]
        · intro hm
          rcases List.mem_cons.mp hm with hm | hm
          · exact hx hm.symm
          · exact hna hm

theorem breakFirst_of_not_mem (c : Char) (l : List Char) (h : c ∉ l) :
    breakFirst c l = none := by
  induction l with
  | nil => rfl
  | cons x xs ih =>
    have hx : ¬x = c := fun hxc => h (by simp [hxc])
    have hxs : c ∉ xs := fun hm => h (List.mem_cons_of_mem x hm)
    simp only [breakFirst, if_neg hx, ih hxs]

theorem breakFirst_append (c : Char) (a b : List Char) (h : c ∉ a) :
    breakFirst c (a ++ c :: b) = some (a, b) := by
  induction a with
  | nil => simp [breakFirst]
  | cons x xs ih =>
    have hx : ¬x = c := fun hxc => h (by simp [hxc])
    have hxs : c ∉ xs := fun hm => h (List.mem_cons_of_mem x hm)
    have h1 : (x :: xs) ++ c :: b = x :: (xs ++ c :: b) := rfl
    rw [h1]
    simp only [breakFirst, if_neg hx, ih hxs]

theorem length_of_mem_splitOnChar (c : Char) (l : List Char) (p : List Char)
    (h : p ∈ splitOnChar c l) : p.length ≤ l.length := by
  induction l generalizing p with
  | nil =>
    simp [splitOnChar] at h
    simp [h]
  | cons x xs ih =>
    by_cases hx : x = c
    · simp only [splitOnChar, if_pos hx, List.mem_cons] at h
      rcases h with h | h
      · simp [h]
      · exact Nat.le_succ_of_le (ih p h)
    · obtain ⟨q, qs, hr⟩ := List.exists_cons_of_ne_nil (splitOnChar_ne_nil c xs)
      simp only [splitOnChar, if_neg hx, hr, List.mem_cons] at h
      rcases h with h | h
      · subst h
        have : q.length ≤ xs.length := ih q (by rw [hr]; exact List.mem_cons_self q qs)
        simpa using Nat.succ_le_succ this
      · exact Nat.le_succ_of_le (ih p (by rw [hr]; exact List.mem_cons_of_mem q h))

/-! Length bounds used to justify the cleaning fuel. -/

theorem joinTail_filter_length (c : Char) (f : List Char → Bool)
    (ps : List (List Char)) :
    (joinTail c (ps.filter f)).length ≤ (joinTail c ps).length := by
  induction ps with
  | nil => simp
  | cons p ps ih =>
    rw [List.filter_cons]
    by_cases hf : f p
    · simp only [hf, if_pos]
      simp only [joinTail, List.length_cons, List.length_append]
      omega
    · simp only [hf, Bool.false_eq_true, if_neg, not_false_eq_true]
      simp only [joinTail, List.length_cons, List.length_append]
      omega

theorem joinSep_length_le_joinTail (c : Char) (ps : List (List Char)) :
    (joinSep c ps).length ≤ (joinTail c ps).length := by
  cases ps with
  | nil => simp [joinSep, joinTail]
  | cons p ps =>
    simp only [joinSep, joinTail, List.length_cons, List.length_append]
    omega

theorem joinSep_filter_length (c : Char) (f : List Char → Bool)
    (ps : List (List Char)) :
    (joinSep c (ps.filter f)).length ≤ (joinSep c ps).length := by
  induction ps with
  | nil => simp
  | cons p ps ih =>
    have e2 : joinSep c (p :: ps) = p ++ joinTail c ps := rfl
    rw [List.filter_cons]
    by_cases hf : f p = true
    · rw [if_pos hf]
      have e1 : joinSep c (p :: ps.filter f) = p ++ joinTail c (ps.filter f) := rfl
      rw [e1, e2]
      have := joinTail_filter_length c f ps
      simp only [List.length_append]
      omega
    · rw [if_neg hf, e2]
      have h1 := joinSep_length_le_joinTail c ps
      simp only [List.length_append]
      omega

theorem first_url_value_length (ps : List (List Char)) (v : List Char)
    (h : first_url_value ps = some v) : ∃ p ∈ ps, v.length < p.length := by
  induction ps with
  | nil => simp [first_url_value] at h
  | cons p ps ih =>
    cases hb : breakFirst '=' p with
    | none =>
      simp only [first_url_value, hb] at h
      obtain ⟨r, hr, hlen⟩ := ih h
      exact ⟨r, List.mem_cons_of_mem p hr, hlen⟩
    | some kv =>
      obtain ⟨k, w⟩ := kv
      simp only [first_url_value, hb] at h
      by_cases hu : is_url_value w = true
      · rw [if_pos hu] at h
        obtain hv : w = v := by simpa using h
        subst hv
        refine ⟨p, List.mem_cons_self p ps, ?_⟩
        obtain ⟨hp, -⟩ := breakFirst_eq '=' p k w hb
        rw [hp]
        simp only [List.length_append, List.length_cons]
        omega
      · rw [if_neg hu] at h
        obtain ⟨r, hr, hlen⟩ := ih h
        exact ⟨r, List.mem_cons_of_mem p hr, hlen⟩

theorem redirect_target_length (l t : List Char)
    (h : redirect_target l = some t) : t.length < l.length := by
  unfold redirect_target at h
  cases hb : breakFirst '?' l with
  | none => rw [hb] at h; simp at h
  | some bq =>
    obtain ⟨b, q⟩ := bq
    rw [hb] at h
    obtain ⟨p, hp, hlen⟩ := first_url_value_length _ _ h
    have h1 : p.length ≤ q.length := length_of_mem_splitOnChar '&' q p hp
    obtain ⟨hl, -⟩ := breakFirst_eq '?' l b q hb
    rw [hl]
    simp only [List.length_append, List.length_cons]
    omega

theorem strip_tracking_length (l : List Char) :
    (strip_tracking l).length ≤ l.length := by
  cases hb : breakFirst '?' l with
  | none =>
    have h1 : strip_tracking l = l := by simp only [strip_tracking, hb]
    rw [h1]
  | some bq =>
    obtain ⟨b, q⟩ := bq
    obtain ⟨hl, -⟩ := breakFirst_eq '?' l b q hb
    cases hk : (splitOnChar '&' q).filter (fun p => !is_tracking_param p) with
    | nil =>
      have h1 : strip_tracking l = b := by simp only [strip_tracking, hb, hk]
      rw [h1, hl]
      simp only [List.length_append, List.length_cons]
      omega
    | cons k ks =>
      have h1 : strip_tracking l = b ++ '?' :: joinSep '&' (k :: ks) := by
        simp only [strip_tracking, hb, hk]
      have h2 : (joinSep '&' (k :: ks)).length ≤ (joinSep '&' (splitOnChar '&' q)).length := by
        rw [← hk]
        exact joinSep_filter_length '&' _ _
      rw [joinSep_splitOnChar '&' q] at h2
      rw [h1, hl]
      simp only [List.length_append, List.length_cons]
      omega

theorem filter_of_all {α : Type} (f : α → Bool) (l : List α)
    (h : ∀ p ∈ l, f p = true) : l.filter f = l := by
  induction l with
  | nil => rfl
  | cons x xs ih =>
    rw [List.filter_cons, if_pos (h x (List.mem_cons_self x xs)),
      ih (fun p hp => h p (List.mem_cons_of_mem x hp))]

theorem strip_tracking_idem (l : List Char) :
    strip_tracking (strip_tracking l) = strip_tracking l := by
  cases hb : breakFirst '?' l with
  | none =>
    have h1 : strip_tracking l = l := by simp only [strip_tracking, hb]
    rw [h1, h1]
  | some bq =>
    obtain ⟨b, q⟩ := bq
    obtain ⟨hl, hnb⟩ := breakFirst_eq '?' l b q hb
    cases hk : (splitOnChar '&' q).filter (fun p => !is_tracking_param p) with
    | nil =>
      have h1 : strip_tracking l = b := by simp only [strip_tracking, hb, hk]
      rw [h1]
      simp only [strip_tracking, breakFirst_of_not_mem '?' b hnb]
    | cons k ks =>
      have h1 : strip_tracking l = b ++ '?' :: joinSep '&' (k :: ks) := by
        simp only [strip_tracking, hb, hk]
      have hmem : ∀ p ∈ k :: ks, '&' ∉ p := by
        intro p hp
        have hp2 : p ∈ (splitOnChar '&' q).filter (fun r => !is_tracking_param r) := by
          rw [hk]
          exact hp
        exact not_mem_splitOnChar '&' q p (List.mem_filter.mp hp2).1
      have hall : ∀ p ∈ k :: ks, (fun r => !is_tracking_param r) p = true := by
        intro p hp
        have hp2 : p ∈ (splitOnChar '&' q).filter (fun r => !is_tracking_param r) := by
          rw [hk]
          exact hp
        exact (List.mem_filter.mp hp2).2
      rw [h1]
      simp only [strip_tracking, breakFirst_append '?' b _ hnb,
        splitOnChar_joinSep '&' (k :: ks) (by simp) hmem,
        filter_of_all _ _ hall]

theorem clean_url_fuel_fix (n : Nat) :
    ∀ l : List Char, l.length ≤ n →
      strip_tracking (clean_url_fuel n l) = clean_url_fuel n l ∧
        redirect_target (clean_url_fuel n l) = none := by
  induction n with
  | zero =>
    intro l hl
    have h0 : l = [] := List.length_eq_zero.mp (Nat.le_zero.mp hl)
    subst h0
    constructor <;> decide
  | succ n ih =>
    intro l hl
    cases hr : redirect_target (strip_tracking l) with
    | some t =>
      have h1 : clean_url_fuel (n + 1) l = clean_url_fuel n t := by
        simp only [clean_url_fuel, hr]
      rw [h1]
      apply ih
      have h2 := redirect_target_length _ _ hr
      have h3 := strip_tracking_length l
      omega
    | none =>
      have h1 : clean_url_fuel (n + 1) l = strip_tracking l := by
        simp only [clean_url_fuel, hr]
      rw [h1]
      exact ⟨strip_tracking_idem l, hr⟩

theorem clean_url_fuel_fixed (l : List Char) (h1 : strip_tracking l = l)
    (h2 : redirect_target l = none) : ∀ m, clean_url_fuel m l = l := by
  intro m
  cases m with
  | zero => exact h1
  | succ m =>
    simp only [clean_url_fuel, h1, h2]

theorem clean_url_idem_chars (l : List Char) :
    clean_url_fuel (clean_url_fuel l.length l).length (clean_url_fuel l.length l) =
      clean_url_fuel l.length l := by
  obtain ⟨h1, h2⟩ := clean_url_fuel_fix l.length l (Nat.le_refl _)
  exact clean_url_fuel_fixed _ h1 h2 _

theorem strip_tracking_of_no_tracking (l : List Char)
    (h : has_tracking_chars l = false) : strip_tracking l = l := by
  cases hb : breakFirst '?' l with
  | none => simp only [strip_tracking, hb]
  | some bq =>
    obtain ⟨b, q⟩ := bq
    have h2 : (splitOnChar '&' q).any is_tracking_param = false := by
      simpa only [has_tracking_chars, hb] using h
    have hall : ∀ p ∈ splitOnChar '&' q, (fun r => !is_tracking_param r) p = true := by
      intro p hp
      have h3 := List.any_eq_false.mp h2 p hp
      simpa using h3
    obtain ⟨k, ks, hr⟩ := List.exists_cons_of_ne_nil (splitOnChar_ne_nil '&' q)
    obtain ⟨hl, -⟩ := breakFirst_eq '?' l b q hb
    have h5 : (splitOnChar '&' q).filter (fun p => !is_tracking_param p) = k :: ks := by
      rw [filter_of_all _ _ hall, hr]
    have h4 : strip_tracking l = b ++ '?' :: joinSep '&' (k :: ks) := by
      simp only [strip_tracking, hb, h5]
    rw [h4, ← hr, joinSep_splitOnChar '&' q, hl]

theorem clean_url_unchanged (u : String) (h1 : has_tracking_params u = false)
    (h2 : has_redirect_param u = false) : clean_url u = u := by
  have hs : strip_tracking u.data = u.data := strip_tracking_of_no_tracking u.data h1
  have hr : redirect_target u.data = none := by
    cases hro : redirect_target u.data with
    | none => rfl
    | some t =>
      unfold has_redirect_param at h2
      rw [hro] at h2
      simp at h2
  show String.mk (clean_url_fuel u.data.length u.data) = u
  rw [clean_url_fuel_fixed u.data hs hr u.data.length]

/-! Helper lemmas about the configuration layer. -/

/-- Replacing a section in place preserves lookup success for its name. -/
theorem lookupSection_map_set (ss : Sections) (name : String) (sec : ConfigSection)
    (h : (lookupSection ss name).isSome = true) :
    lookupSection (ss.map (fun s => if s.1 == name then (name, sec) else s)) name =
      some sec := by
  induction ss with
  | nil => simp [lookupSection] at h
  | cons s ss ih =>
    by_cases hs : (s.1 == name) = true
    · simp only [List.map_cons, if_pos hs, lookupSection, beq_self_eq_true, if_pos]
    · have hs2 : (s.1 == name) = false := by simpa using hs
      simp only [lookupSection, hs2, Bool.false_eq_true, if_neg, not_false_eq_true] at h
      simp only [List.map_cons, hs2, Bool.false_eq_true, if_neg, not_false_eq_true,
        lookupSection]
      exact ih h

/-- Appending a fresh section makes its lookup succeed. -/
theorem lookupSection_append_self (ss : Sections) (name : String) (sec : ConfigSection)
    (h : lookupSection ss name = none) :
    lookupSection (ss ++ [(name, sec)]) name = some sec := by
  induction ss with
  | nil => simp [lookupSection]
  | cons s ss ih =>
    by_cases hs : (s.1 == name) = true
    · simp [lookupSection, hs] at h
    · have hs2 : (s.1 == name) = false := by simpa using hs
      simp only [lookupSection, hs2, Bool.false_eq_true, if_neg, not_false_eq_true] at h
      simp only [List.cons_append, lookupSection, hs2, Bool.false_eq_true, if_neg,
        not_false_eq_true]
      exact ih h

/-- setSection always leaves the named section present with the new content. -/
theorem lookupSection_setSection (ss : Sections) (name : String) (sec : ConfigSection) :
    lookupSection (setSection ss name sec) name = some sec := by
  unfold setSection
  by_cases h : hasSection ss name = true
  · rw [if_pos h]
    exact lookupSection_map_set ss name sec h
  · rw [if_neg h]
    apply lookupSection_append_self
    unfold hasSection at h
    cases hl : lookupSection ss name with
    | none => rfl
    | some sec2 => rw [hl] at h; simp at h

/-- setSection always leaves the named section present. -/
theorem hasSection_setSection (ss : Sections) (name : String) (sec : ConfigSection) :
    hasSection (setSection ss name sec) name = true := by
  unfold hasSection
  rw [lookupSection_setSection]
  rfl

/-- read_bool succeeds whenever the requested section exists. -/
theorem read_bool_ok (st : ConfigState) (setting sect : String) (fallback : Bool)
    (h : hasSection st.mem sect = true) :
    exceptOk (st.read_bool setting sect fallback) = true := by
  cases hl : lookupSection st.mem sect with
  | none => unfold hasSection at h; rw [hl] at h; simp at h
  | some sec =>
    cases hk : findKey sec setting with
    | none => simp [ConfigState.read_bool, hl, hk, exceptOk]
    | some v =>
      cases hb : str_to_bool v with
      | some b => simp [ConfigState.read_bool, hl, hk, hb, exceptOk]
      | none => simp [ConfigState.read_bool, hl, hk, hb, exceptOk]

/-- write_bool succeeds whenever the requested section exists. -/
theorem write_bool_ok (st : ConfigState) (setting value sect : String)
    (h : hasSection st.mem sect = true) :
    exceptOk (st.write_bool setting value sect) = true := by
  cases hl : lookupSection st.mem sect with
  | none => unfold hasSection at h; rw [hl] at h; simp at h
  | some sec => simp [ConfigState.write_bool, hl, exceptOk]

/-! Claim theorems. -/

/-- C1 counterexample: on a stored value that is not a valid boolean string,
read_bool returns the fallback and rewrites the value in memory, but the
configuration on disk keeps the corrupted value: the repair is not persisted
to the config file. -/
theorem read_bool_repair_not_persisted :
    ConfigState.read_bool
        ⟨[("main", [("flag", "maybe")])], [("main", [("flag", "maybe")])]⟩
        "flag" "main" true =
      Except.ok (true,
        ⟨[("main", [("flag", "yes")])], [("main", [("flag", "maybe")])]⟩) ∧
    ([("main", [("flag", "maybe")])] : Sections) ≠ [("main", [("flag", "yes")])] := by
  constructor
  · rfl
  · decide

/-- C1 (amended): for every setting whose stored value in the given section is
not a valid boolean string, read_bool returns the fallback default and
rewrites the stored value in memory to a canonical boolean string according
to the fallback, but does not write the configuration file: the disk content
is unchanged. -/
theorem read_bool_repairs_in_memory (mem disk : Sections)
    (setting sect v : String) (sec : ConfigSection) (fallback : Bool)
    (h1 : lookupSection mem sect = some sec)
    (h2 : findKey sec setting = some v)
    (h3 : str_to_bool v = none) :
    ConfigState.read_bool ⟨mem, disk⟩ setting sect fallback =
      Except.ok (fallback,
        ⟨setKey mem sect setting (if fallback then "yes" else "no"), disk⟩) := by
  simp [ConfigState.read_bool, h1, h2, h3]

/-- Witness for the amended C1 theorem at a concrete corrupted value. -/
theorem read_bool_repairs_in_memory_witness :
    lookupSection [("main", [("flag", "maybe")])] "main" = some [("flag", "maybe")] ∧
    findKey [("flag", "maybe")] "flag" = some "maybe" ∧
    str_to_bool "maybe" = none ∧
    ConfigState.read_bool ⟨[("main", [("flag", "maybe")])], []⟩ "flag" "main" false =
      Except.ok (false,
        ⟨setKey [("main", [("flag", "maybe")])] "main" "flag"
          (if false then "yes" else "no"), []⟩) :=
  ⟨rfl, rfl, rfl,
    read_bool_repairs_in_memory [("main", [("flag", "maybe")])] [] "flag" "main"
      "maybe" [("flag", "maybe")] false rfl rfl rfl⟩

/-- C8 counterexample: write_bool with a section that is not in the loaded
configuration raises KeyError (configparser item access), so it neither sets
a value nor writes the file for that section. -/
theorem write_bool_missing_section_errors :
    ConfigState.write_bool ⟨[("main", [])], [("main", [])]⟩ "x" "yes" "other" =
      Except.error () := rfl

/-- C8 (amended): for every setting and value, and every section present in
the loaded configuration, write_bool sets the in-memory value and immediately
writes the whole configuration back to the file on disk. -/
theorem write_bool_sets_and_persists (st : ConfigState) (setting value sect : String)
    (h : hasSection st.mem sect = true) :
    ConfigState.write_bool st setting value sect =
      Except.ok ⟨setKey st.mem sect setting value, setKey st.mem sect setting value⟩ := by
  cases hl : lookupSection st.mem sect with
  | none => unfold hasSection at h; rw [hl] at h; simp at h
  | some sec => simp [ConfigState.write_bool, ConfigState.save, hl]

/-- Witness for the amended C8 theorem at a concrete section. -/
theorem write_bool_sets_and_persists_witness :
    hasSection ([("main", [])] : Sections) "main" = true ∧
    ConfigState.write_bool ⟨[("main", [])], []⟩ "ask_default_browser" "no" "main" =
      Except.ok ⟨setKey [("main", [])] "main" "ask_default_browser" "no",
        setKey [("main", [])] "main" "ask_default_browser" "no"⟩ :=
  ⟨rfl,
    write_bool_sets_and_persists ⟨[("main", [])], []⟩ "ask_default_browser" "no" "main"
      (by decide)⟩

/-- C10: after Config.__init__ completes, whether the config file existed, was
synthesized, or lacks a main section, the loaded configuration contains a
main section, so read_bool and write_bool on the default section never fail
with a missing-section error. -/
theorem config_init_main_section_invariant (disk_file : Option Sections)
    (browsers : List String) :
    hasSection (config_init disk_file browsers).mem "main" = true ∧
    (∀ (setting : String) (fallback : Bool),
      exceptOk ((config_init disk_file browsers).read_bool setting "main" fallback) =
        true) ∧
    (∀ setting value : String,
      exceptOk ((config_init disk_file browsers).write_bool setting value "main") =
        true) := by
  have e : (config_init disk_file browsers).mem =
      if hasSection (config_disk disk_file browsers) "main" = true then
        config_disk disk_file browsers
      else setSection (config_disk disk_file browsers) "main" [] := rfl
  have hmain : hasSection (config_init disk_file browsers).mem "main" = true := by
    rw [e]
    by_cases h : hasSection (config_disk disk_file browsers) "main" = true
    · rw [if_pos h]
      exact h
    · rw [if_neg h]
      exact hasSection_setSection _ _ _
  exact ⟨hmain,
    fun setting fallback => read_bool_ok _ setting "main" fallback hmain,
    fun setting value => write_bool_ok _ setting value "main" hmain⟩

/-- C3: for every input string, URL cleaning is idempotent. -/
theorem clean_url_idempotent (u : String) : clean_url (clean_url u) = clean_url u :=
  congrArg String.mk (clean_url_idem_chars u.data)

/-- C4 counterexample: the redirect-wrapper URL contains no tracking
parameters, yet cleaning changes it, so cleaning does not return every URL
without tracking parameters unchanged. -/
theorem clean_url_changes_url_without_tracking :
    has_tracking_params "https://t.co/?redirect=https://real.site/page" = false ∧
    clean_url "https://t.co/?redirect=https://real.site/page" ≠
      "https://t.co/?redirect=https://real.site/page" := by
  constructor
  · rfl
  · decide

/-- C4 (amended): cleaning removes exactly the fixed set of known tracking
query parameters: every URL with no tracking parameters and no
redirect-wrapper parameter is returned unchanged, and on the example URL the
tracking parameter is removed while the other parameter is retained. -/
theorem clean_url_strips_exactly_tracking (u : String)
    (h1 : has_tracking_params u = false) (h2 : has_redirect_param u = false) :
    clean_url u = u ∧
    clean_url "https://example.com/?utm_source=x&id=5" = "https://example.com/?id=5" :=
  ⟨clean_url_unchanged u h1 h2, by decide⟩

/-- Witness for the amended C4 theorem at a concrete clean URL. -/
theorem clean_url_strips_exactly_tracking_witness :
    has_tracking_params "https://example.com/?id=5" = false ∧
    has_redirect_param "https://example.com/?id=5" = false ∧
    clean_url "https://example.com/?id=5" = "https://example.com/?id=5" :=
  ⟨by decide, by decide,
    (clean_url_strips_exactly_tracking "https://example.com/?id=5"
      (by decide) (by decide)).1⟩

/-- C5: cleaning unwraps a redirect wrapper to the nested target, and does so
recursively through nested wrappers; clean_url is total by construction (its
recursion is bounded by the input length), so cleaning terminates on every
input. -/
theorem clean_url_unwraps_redirects :
    clean_url "https://t.co/?redirect=https://real.site/page" =
      "https://real.site/page" ∧
    clean_url "https://a.example/?u=https://t.co/?redirect=https://real.site/page" =
      "https://real.site/page" := by
  constructor <;> decide

/-- C6: extraction returns the first URL-shaped substring of non-URL text when
one is present and none otherwise; accordingly get_clipboard_url returns none
when the clipboard has no text or its text contains no URL. -/
theorem extract_url_first_and_clipboard :
    extract_url "check this out https://example.com/x cool right?" =
      some "https://example.com/x" ∧
    extract_url "no links here" = none ∧
    get_clipboard_url none = none ∧
    (∀ s : String, extract_url s = none → get_clipboard_url (some s) = none) := by
  refine ⟨by decide, by decide, rfl, ?_⟩
  intro s hs
  simp only [get_clipboard_url]
  by_cases h : s = ""
  · rw [if_pos h]
  · rw [if_neg h, hs]

/-- Witness for the C6 theorem at concrete URL-free clipboard text. -/
theorem extract_url_first_and_clipboard_witness :
    extract_url "hello world" = none ∧ get_clipboard_url (some "hello world") = none :=
  ⟨by decide, extract_url_first_and_clipboard.2.2.2 "hello world" (by decide)⟩

/-- C7: get_program returns the program matching the key; a key that names no
configured program falls back to the same result as passing no key (the
configured default); with zero configured programs it returns none. -/
theorem get_program_fallback (ur : UrouteState) (k : String) (p : Program) :
    (find_program ur.programs k = some p → get_program ur (some k) = some p) ∧
    (find_program ur.programs k = none →
      get_program ur (some k) = get_program ur none) ∧
    (ur.programs = [] → get_program ur (some k) = none ∧ get_program ur none = none) := by
  refine ⟨?_, ?_, ?_⟩
  · intro h
    simp [get_program, h]
  · intro h
    simp [get_program, h]
  · intro h
    constructor <;> simp [get_program, h, find_program]

/-- Witness for the C7 theorem at a concrete one-program registry. -/
theorem get_program_fallback_witness :
    find_program [⟨"firefox", "Firefox", "firefox", none⟩] "firefox" =
      some ⟨"firefox", "Firefox", "firefox", none⟩ ∧
    get_program ⟨[⟨"firefox", "Firefox", "firefox", none⟩], "firefox"⟩
        (some "firefox") =
      some ⟨"firefox", "Firefox", "firefox", none⟩ :=
  ⟨rfl,
    (get_program_fallback ⟨[⟨"firefox", "Firefox", "firefox", none⟩], "firefox"⟩
      "firefox" ⟨"firefox", "Firefox", "firefox", none⟩).1 rfl⟩

/-- C2 counterexample: pressing Run with an empty command entry captures the
empty string, so a command distinct from None is captured when the loop ends,
yet main launches nothing, refuting the launch-iff-captured equivalence. -/
theorem run_empty_command_not_launched :
    (handle_event ⟨none, "", "http://x", true⟩ GuiEvent.run_button).command =
      some "" ∧
    (handle_event ⟨none, "", "http://x", true⟩ GuiEvent.run_button).command ≠ none ∧
    (main false (Except.ok (some "", "http://x")) (Except.ok ())).launched = none ∧
    (main false (Except.ok (some "", "http://x")) (Except.ok ())).exit_code = 0 := by
  refine ⟨rfl, by decide, rfl, rfl⟩

/-- C2 (amended): Run events (button, icon double-click, Return key) capture
the command entry text and the URL entry text and terminate the loop; Cancel
events (button, window destroy, Escape key) clear the captured command to
None and terminate the loop; after the loop, the orchestrator launches the
command if and only if the captured command is non-None and non-empty. -/
theorem gui_events_and_launch (s : GuiState) (c : Option String) (url : String) :
    handle_event s GuiEvent.run_button =
      { s with command := some s.command_entry, running := false } ∧
    handle_event s GuiEvent.icon_activated =
      { s with command := some s.command_entry, running := false } ∧
    handle_event s (GuiEvent.key KEY_Return) =
      { s with command := some s.command_entry, running := false } ∧
    handle_event s GuiEvent.cancel_button =
      { s with command := none, running := false } ∧
    handle_event s GuiEvent.window_destroy =
      { s with command := none, running := false } ∧
    handle_event s (GuiEvent.key KEY_Escape) =
      { s with command := none, running := false } ∧
    gui_run_result (handle_event s GuiEvent.run_button) =
      (some s.command_entry, s.url_entry) ∧
    ((main false (Except.ok (c, url)) (Except.ok ())).launched ≠ none ↔
      command_truthy c = true) := by
  refine ⟨rfl, rfl, ?_, rfl, rfl, ?_, rfl, ?_⟩
  · show on_key_pressed s KEY_Return = _
    simp [on_key_pressed, KEY_Return, KEY_Escape, on_run_clicked]
  · show on_key_pressed s KEY_Escape = _
    simp [on_key_pressed, KEY_Return, KEY_Escape, on_cancel_clicked]
  · cases c with
    | none => simp [main, command_truthy]
    | some cs =>
      by_cases hc : cs = ""
      · subst hc
        simp [main, command_truthy]
      · simp [main, command_truthy, hc]

/-- C9: with the version flag, main prints the version and exits 0; any
uncaught error raised inside the try block around the GUI run and the launch
is logged and makes the process exit 1; otherwise the process exits 0. -/
theorem main_version_error_exit_codes (g : Except String (Option String × String))
    (r : Except String Unit) (e url c : String) :
    main true g r = ⟨true, false, none, 0⟩ ∧
    main false (Except.error e) r = ⟨false, true, none, 1⟩ ∧
    main false (Except.ok (none, url)) r = ⟨false, false, none, 0⟩ ∧
    main false (Except.ok (some c, url)) (Except.error e) =
      (if c == "" then ⟨false, false, none, 0⟩ else ⟨false, true, none, 1⟩) ∧
    main false (Except.ok (some c, url)) (Except.ok ()) =
      (if c == "" then ⟨false, false, none, 0⟩
       else ⟨false, false, some (c, url), 0⟩) := by
  refine ⟨rfl, rfl, rfl, ?_, ?_⟩ <;>
    · by_cases hc : (c == "") = true
      · simp [main, hc]
      · simp [main, hc]

end UrouteModel

